import Mathlib

/-!
Verification development for the AMICI simulation & sensitivity engine.

The development shallowly embeds:
* the generated model file `src/models/model_robertson/model_robertson_M.cpp`
  (the Robertson DAE mass matrix),
* the SBML test model `src/python/tests/sbml_models/regression_2642.xml`
  (initial assignments and reaction kinetic laws),
* and, for the engine core that is not part of the source tree here, a model
  of the integration driver, event handler, steady-state solver and linear
  algebra adapter, built from the specification text.

Machine reals are embedded as exact rationals `ℚ`; a possibly non-finite
floating point value (NaN/Inf) is embedded as `Option ℚ`, with `none`
standing for any non-finite value.
-/

namespace AmiciSpec

/-! ### Robertson model mass matrix (`model_robertson_M.cpp`)

The C function receives a caller-allocated buffer `M` (column-major, 3×3,
so entry `(i,j)` lives at flat index `i + j*3`) and writes
`M[0+0*3] = 1.0; M[1+1*3] = 1.0;`.  The buffer is embedded as a list of
rationals and each assignment as `List.set`. -/

/-- Embedding of `M_model_robertson` from
`src/models/model_robertson/model_robertson_M.cpp`: writes `1.0` to flat
indices `0 + 0*3` and `1 + 1*3` of the caller-provided buffer `M`; the
numeric inputs `t`, `x`, `p`, `k` are never read. -/
def M_model_robertson (M : List ℚ) (t : ℚ) (x p k : List ℚ) : List ℚ :=
  ((M.set (0 + 0 * 3) 1).set (1 + 1 * 3) 1)

/-- Entry `(i, j)` of a column-major 3×3 buffer. -/
def entry3 (M : List ℚ) (i j : ℕ) : ℚ :=
  M.getD (i + j * 3) 0

/-- Determinant of a column-major 3×3 buffer, by cofactor expansion. -/
def det3 (M : List ℚ) : ℚ :=
  entry3 M 0 0 * (entry3 M 1 1 * entry3 M 2 2 - entry3 M 1 2 * entry3 M 2 1)
    - entry3 M 0 1 * (entry3 M 1 0 * entry3 M 2 2 - entry3 M 1 2 * entry3 M 2 0)
    + entry3 M 0 2 * (entry3 M 1 0 * entry3 M 2 1 - entry3 M 1 1 * entry3 M 2 0)

/-- The column-major flat form of `diag (1, 1, 0)`. -/
def diag110 : List ℚ := [1, 0, 0, 0, 1, 0, 0, 0, 0]

/-! ### SBML model `regression_2642.xml`

Species `MR_i`, `MR_m`; parameters `synthesis_MR`, `recycling`, `binding`.
Kinetic laws: `_J0` produces `MR_i` at rate `synthesis_MR`; `_J1` converts
`MR_i → MR_m` at rate `recycling * MR_i`; `_J2` converts `MR_m → MR_i` at
rate `binding * MR_m`.  The initial assignment for `binding` is
`(recycling * MR_i - synthesis_MR) / MR_m`, and the one for `synthesis_MR`
is the constant `0.00585177319092733 / 0.00606`. -/

/-- Kinetic law of reaction `_J0` (line 90 of `regression_2642.xml`). -/
def rate_J0 (synthesis_MR : ℚ) : ℚ := synthesis_MR

/-- Kinetic law of reaction `_J1` (lines 103–107 of `regression_2642.xml`). -/
def rate_J1 (recycling MR_i : ℚ) : ℚ := recycling * MR_i

/-- Kinetic law of reaction `_J2` (lines 120–124 of `regression_2642.xml`). -/
def rate_J2 (binding MR_m : ℚ) : ℚ := binding * MR_m

/-- Initial assignment for `binding` (lines 65–81 of `regression_2642.xml`). -/
def binding_init (recycling MR_i synthesis_MR MR_m : ℚ) : ℚ :=
  (recycling * MR_i - synthesis_MR) / MR_m

/-- Initial assignment for `synthesis_MR` (lines 56–64 of
`regression_2642.xml`): `0.00585177319092733 / 0.00606` in exact rational
arithmetic. -/
def synthesis_MR_init : ℚ :=
  (585177319092733 / 100000000000000000) / (606 / 100000)

/-- Net rate of species `MR_i`: product of `_J0`, reactant of `_J1`,
product of `_J2`, all with stoichiometry 1. -/
def netRate_MR_i (synthesis_MR recycling binding MR_i MR_m : ℚ) : ℚ :=
  rate_J0 synthesis_MR - rate_J1 recycling MR_i + rate_J2 binding MR_m

/-- Net rate of species `MR_m`: product of `_J1`, reactant of `_J2`. -/
def netRate_MR_m (recycling binding MR_i MR_m : ℚ) : ℚ :=
  rate_J1 recycling MR_i - rate_J2 binding MR_m

/-! ### Engine core, modelled from the specification

The integration driver, event handler, steady-state solver and linear
algebra adapter are not part of the source tree here, so they are modelled
from the specification text (sections 3, 4.1–4.5, 7).  The external
stiff integrator (out of scope per §1) is concretized as a
two-stage (Heun) trial step built from the model right-hand side; what
matters for the claims is the driver policy around it: error taxonomy,
step rejection and retry budget, event detection and ordering, output
reporting, and history consistency. -/

/-- Modelled from the spec: a machine value that may be non-finite;
`none` stands for NaN or Inf. -/
abbrev Val := Option ℚ

/-- Modelled from the spec: the error taxonomy of §7. -/
inductive EngineError
  | evaluationError
  | singularMatrixError
  | nonConvergenceError
  | integrationFailure
  | eventLocalizationError
deriving DecidableEq

/-- Modelled from the spec: the Model Contract of §4.1 — state right-hand
side, root functions with direction filters, event state-update rules for
state and forward sensitivities, forward-sensitivity right-hand side, and
initial conditions.  All members are pure functions of their arguments. -/
structure Model where
  rhs : ℚ → List ℚ → List ℚ → List Val
  nroots : ℕ
  roots : ℚ → List ℚ → List ℚ → List ℚ
  rootDir : ℕ → Int
  update : ℕ → ℚ → List ℚ → List ℚ
  updateSx : ℕ → ℚ → List ℚ → List (List ℚ) → List (List ℚ)
  sensRhs : ℚ → List ℚ → List ℚ → List (List ℚ) → List (List ℚ)
  x0 : List ℚ → List ℚ
  sx0 : List ℚ → List (List ℚ)

/-- Modelled from the spec: the per-run configuration surface of §6 —
parameters, initial step size, requested output times, the bounded retry
budget of §7 and the maximum step count of §4.3. -/
structure Config where
  p : List ℚ
  h0 : ℚ
  touts : List ℚ
  maxRejects : ℕ
  maxSteps : ℕ

/-- Modelled from the spec: evaluation of `rhs(t, x, p)`; fails with
`EvaluationError` when any output component is non-finite. -/
def evalRhs (m : Model) (t : ℚ) (x p : List ℚ) : Except EngineError (List ℚ) :=
  let v := m.rhs t x p
  if v.all (fun o => o.isSome) then Except.ok (v.map (fun o => o.getD 0))
  else Except.error EngineError.evaluationError

/-- Componentwise `x + h • d`. -/
def addScaled (x : List ℚ) (h : ℚ) (d : List ℚ) : List ℚ :=
  x.zipWith (fun a b => a + h * b) d

/-- Rowwise `sx + h • d` for a sensitivity matrix stored as rows. -/
def addScaledMat (sx : List (List ℚ)) (h : ℚ) (d : List (List ℚ)) : List (List ℚ) :=
  sx.zipWith (fun r dr => addScaled r h dr) d

/-- Modelled from the spec: one attempted adaptive step of the external
integrator, concretized as a two-stage trial step; it fails with the
`EvaluationError` of whichever right-hand-side evaluation produced a
non-finite value. -/
def attemptStep (m : Model) (p : List ℚ) (t h : ℚ) (x : List ℚ) :
    Except EngineError (List ℚ) := do
  let k1 ← evalRhs m t x p
  let k2 ← evalRhs m (t + h) (addScaled x h k1) p
  Except.ok (addScaled x (h / 2) (k1.zipWith (fun a b => a + b) k2))

/-- Modelled from the spec: the direction filter of a root function
(§3, §4.2): `1` rising, `-1` falling, `0` either; a sign change with no
matching direction is ignored. -/
def dirMatch (dir : Int) (a b : ℚ) : Bool :=
  (decide (a < 0) && decide (0 ≤ b) && (dir == 1 || dir == 0)) ||
  (decide (0 < a) && decide (b ≤ 0) && (dir == -1 || dir == 0))

/-- Modelled from the spec: the indices of root functions whose value
crossed zero in a matching direction between two consecutive accepted
steps, scanned over the model-declared static event list in declaration
order. -/
def firedIndices (m : Model) (prev cur : List ℚ) : List ℕ :=
  (List.range m.nroots).filter
    (fun i => dirMatch (m.rootDir i) (prev.getD i 0) (cur.getD i 0))

/-- Modelled from the spec: event effects as a pure function
`(t, x, sx) → (x', sx')`, applied for each fired root in list order; the
state and sensitivity updates of one event happen together. -/
def applyEvents (m : Model) (tE : ℚ) (fired : List ℕ)
    (x : List ℚ) (sx : List (List ℚ)) : List ℚ × List (List ℚ) :=
  fired.foldl (fun st i => (m.update i tE st.1, m.updateSx i tE st.1 st.2)) (x, sx)

/-- Modelled from the spec: the driver state machine phases of §4.3.
`eventPending` carries the fired root indices awaiting resolution. -/
inductive Phase
  | initializing
  | stepping
  | eventPending (fired : List ℕ)
  | steadyStateCheck
  | finished
  | failed (e : EngineError)
deriving DecidableEq

/-- Modelled from the spec: one entry of the processed history of a run —
either an accepted integration step or a fired event occurrence. -/
inductive HistEntry
  | accept (t h : ℚ)
  | fire (i : ℕ) (t : ℚ)
deriving DecidableEq

/-- Modelled from the spec: the ModelState of §3 together with the
driver-owned bookkeeping (step size, previous root values, retry and
rejection counters, remaining output times, outputs, event log) and the
processed history. -/
structure DriverState where
  phase : Phase
  t : ℚ
  h : ℚ
  x : List ℚ
  sx : List (List ℚ)
  prevRoots : List ℚ
  retries : ℕ
  rejections : ℕ
  steps : ℕ
  remTouts : List ℚ
  outputs : List (ℚ × List ℚ)
  eventLog : List (ℕ × ℚ)
  hist : List HistEntry
deriving DecidableEq

/-- Modelled from the spec: the state in which a run is created, before
`Initializing` has loaded the initial conditions. -/
def initState : DriverState where
  phase := Phase.initializing
  t := 0
  h := 0
  x := []
  sx := []
  prevRoots := []
  retries := 0
  rejections := 0
  steps := 0
  remTouts := []
  outputs := []
  eventLog := []
  hist := []

/-- Modelled from the spec: one transition of the Integration Driver state
machine (§4.3).  `Initializing` loads `x0`/`sx0` and the configuration;
`Stepping` attempts an adaptive step, treats `EvaluationError` as a
recoverable step rejection (shrink the step, count a rejection, retry up
to the budget), detects root crossings on accepted steps, and reports
output when the step lands on the next requested output time;
`eventPending` applies all fired event effects atomically to `x` and `sx`
in declaration order, logs the occurrences, and only then reports any
output due at the event time; `finished` and `failed` are absorbing. -/
def driverStep (m : Model) (c : Config) (s : DriverState) : DriverState :=
  match s.phase with
  | Phase.initializing =>
      { s with phase := Phase.stepping, t := 0, h := c.h0,
               x := m.x0 c.p, sx := m.sx0 c.p,
               prevRoots := m.roots 0 (m.x0 c.p) c.p,
               remTouts := c.touts, outputs := [], eventLog := [], hist := [] }
  | Phase.stepping =>
      if s.remTouts = [] then { s with phase := Phase.finished }
      else if c.maxSteps ≤ s.steps then
        { s with phase := Phase.failed EngineError.integrationFailure }
      else
        match attemptStep m c.p s.t s.h s.x with
        | Except.error _ =>
            if c.maxRejects ≤ s.retries then
              { s with phase := Phase.failed EngineError.integrationFailure }
            else
              { s with h := s.h / 2, retries := s.retries + 1,
                       rejections := s.rejections + 1 }
        | Except.ok xNew =>
            let tNew := s.t + s.h
            let sxNew := addScaledMat s.sx s.h (m.sensRhs s.t s.x c.p s.sx)
            let rNew := m.roots tNew xNew c.p
            let fired := firedIndices m s.prevRoots rNew
            if fired = [] then
              { s with t := tNew, x := xNew, sx := sxNew, prevRoots := rNew,
                       steps := s.steps + 1, retries := 0,
                       hist := s.hist ++ [HistEntry.accept s.t s.h],
                       remTouts := if s.remTouts.getD 0 0 = tNew then
                                     s.remTouts.drop 1 else s.remTouts,
                       outputs := if s.remTouts.getD 0 0 = tNew then
                                    s.outputs ++ [(tNew, xNew)] else s.outputs }
            else
              { s with phase := Phase.eventPending fired,
                       t := tNew, x := xNew, sx := sxNew, prevRoots := rNew,
                       steps := s.steps + 1, retries := 0,
                       hist := s.hist ++ [HistEntry.accept s.t s.h] }
  | Phase.eventPending fired =>
      let exSx := applyEvents m s.t fired s.x s.sx
      { s with phase := Phase.stepping, x := exSx.1, sx := exSx.2,
               prevRoots := m.roots s.t exSx.1 c.p,
               eventLog := s.eventLog ++ fired.map (fun i => (i, s.t)),
               hist := s.hist ++ fired.map (fun i => HistEntry.fire i s.t),
               remTouts := if s.remTouts.getD 0 0 = s.t then
                             s.remTouts.drop 1 else s.remTouts,
               outputs := if s.remTouts.getD 0 0 = s.t then
                            s.outputs ++ [(s.t, exSx.1)] else s.outputs }
  | Phase.steadyStateCheck => { s with phase := Phase.finished }
  | Phase.finished => s
  | Phase.failed _ => s

/-- Modelled from the spec: running the engine is iterating the driver
transition from the created state. -/
def runDriver (m : Model) (c : Config) : ℕ → DriverState
  | 0 => initState
  | n + 1 => driverStep m c (runDriver m c n)

/-- Modelled from the spec: the failure-test model of §8 — one state
variable, right-hand side returning NaN whenever `x[0] < 0` and a decay
`-x[0]` otherwise, no root functions, initial state `x0 = 1`. -/
def nanModel : Model where
  rhs := fun _ x _ => if x.getD 0 0 < 0 then [none] else [some (-(x.getD 0 0))]
  nroots := 0
  roots := fun _ _ _ => []
  rootDir := fun _ => 0
  update := fun _ _ x => x
  updateSx := fun _ _ _ sx => sx
  sensRhs := fun _ _ _ sx => sx
  x0 := fun _ => [1]
  sx0 := fun _ => []

/-- Configuration for the failure-test run: initial step `2` (large enough
that the first trial step overshoots into the NaN region), output times
`1, 2, 3`. -/
def nanCfg : Config where
  p := []
  h0 := 2
  touts := [1]
  maxRejects := 5
  maxSteps := 100

/-- Modelled from the spec: the event-test model of §8 — one state variable
growing at rate `1`, a single root function `x[0] - 1/2` with rising
direction whose event resets the state to `0`. -/
def eventModel : Model where
  rhs := fun _ _ _ => [some 1]
  nroots := 1
  roots := fun _ x _ => [x.getD 0 0 - 1 / 2]
  rootDir := fun _ => 1
  update := fun _ _ _ => [0]
  updateSx := fun _ _ _ sx => sx
  sensRhs := fun _ _ _ sx => sx
  x0 := fun _ => [0]
  sx0 := fun _ => []

/-- Configuration for the event-test run: one output time `1`, reached by
the same accepted step that crosses the root. -/
def evCfg : Config where
  p := []
  h0 := 1
  touts := [1]
  maxRejects := 5
  maxSteps := 100

/-- Modelled from the spec: the judgment that a run of the engine, started
at state `s`, is at state `s'` after `n` driver transitions.  Determinism
of this judgment expresses that re-running with identical configuration
and parameters reproduces the identical state — including the recorded
trajectory. -/
inductive DriverRun (m : Model) (c : Config) : DriverState → ℕ → DriverState → Prop
  | refl (s : DriverState) : DriverRun m c s 0 s
  | step {s : DriverState} {n : ℕ} {s₁ s₂ : DriverState} :
      DriverRun m c s n s₁ → driverStep m c s₁ = s₂ → DriverRun m c s (n + 1) s₂

/-- Modelled from the spec: replaying one processed-history entry — the
same accepted-step and event-effect rules the driver applies, acting on a
`(x, sx)` pair. -/
def histStep (m : Model) (p : List ℚ) (st : List ℚ × List (List ℚ)) :
    HistEntry → List ℚ × List (List ℚ)
  | HistEntry.accept t h =>
      match attemptStep m p t h st.1 with
      | Except.ok xNew => (xNew, addScaledMat st.2 h (m.sensRhs t st.1 p st.2))
      | Except.error _ => st
  | HistEntry.fire i t => (m.update i t st.1, m.updateSx i t st.1 st.2)

/-- Modelled from the spec: the unique `(x, sx)` pair consistent with a
processed history, obtained by replaying it from the initial conditions. -/
def replayHist (m : Model) (c : Config) (entries : List HistEntry) :
    List ℚ × List (List ℚ) :=
  entries.foldl (histStep m c.p) (m.x0 c.p, m.sx0 c.p)

/-- Modelled from the spec: the ModelState invariant of §3 — the current
`x` is exactly the state determined by the processed history, and the
current `sx` is the sensitivity determined by that same history (so it was
never computed against a stale state). -/
def consistentState (m : Model) (c : Config) (s : DriverState) : Prop :=
  (s.x, s.sx) = replayHist m c s.hist

/-- Modelled from the spec: the SteadyStateResult record of §3 — final
state, convergence flag, iteration count. -/
structure SteadyStateResult where
  x : List ℚ
  converged : Bool
  iterations : ℕ
deriving DecidableEq

/-- Modelled from the spec: configuration of the Steady-State Solver —
parameters, tolerances of the weighted-RMS test, squared convergence
threshold, and the iteration budget. -/
structure SSConfig where
  p : List ℚ
  atol : ℚ
  rtol : ℚ
  tolSq : ℚ
  maxIters : ℕ

/-- Modelled from the spec: squared weighted-RMS-style convergence measure
of `dx/dt` relative to the current state magnitude. -/
def wrmsSq (atol rtol : ℚ) (x dxdt : List ℚ) : ℚ :=
  (x.zipWith (fun xi di => (di / (atol + rtol * |xi|)) ^ 2) dxdt).foldl
    (fun a b => a + b) 0

/-- Modelled from the spec: the integration-based Steady-State Solver of
§4.5 — repeatedly step the integrator (`advance`), testing the convergence
measure of `dx/dt` after each step; report a converged
`SteadyStateResult`, or fail with `NonConvergenceError` once the iteration
budget (the fuel) is exhausted, never returning an unconverged state. -/
def steadyState (m : Model) (c : SSConfig) (advance : List ℚ → List ℚ) :
    ℕ → ℕ → List ℚ → Except EngineError SteadyStateResult
  | 0, _, _ => Except.error EngineError.nonConvergenceError
  | fuel + 1, iters, x =>
      match evalRhs m 0 x c.p with
      | Except.error e => Except.error e
      | Except.ok dx =>
          if wrmsSq c.atol c.rtol x dx ≤ c.tolSq then
            Except.ok ⟨x, true, iters⟩
          else
            steadyState m c advance fuel (iters + 1) (advance x)

/-- Modelled from the spec: a full steady-state computation from the
initial state with the configured iteration budget. -/
def runSteadyState (m : Model) (c : SSConfig)
    (advance : List ℚ → List ℚ) : Except EngineError SteadyStateResult :=
  steadyState m c advance c.maxIters 0 (m.x0 c.p)

/-- Modelled from the spec: the oscillatory steady-state test model of §8 —
the state flips sign on every integrator macro-step, so the derivative
measure never falls below threshold. -/
def oscModel : Model where
  rhs := fun _ x _ => [some (-2 * x.getD 0 0)]
  nroots := 0
  roots := fun _ _ _ => []
  rootDir := fun _ => 0
  update := fun _ _ x => x
  updateSx := fun _ _ _ sx => sx
  sensRhs := fun _ _ _ sx => sx
  x0 := fun _ => [1]
  sx0 := fun _ => []

/-- The integrator advance of the oscillatory test: each macro-step lands
on the sign-flipped state. -/
def oscAdvance (x : List ℚ) : List ℚ := [-(x.getD 0 0)]

/-- Steady-state configuration used in the tests: unit absolute tolerance,
squared threshold `1`, iteration budget `3`. -/
def oscCfg : SSConfig where
  p := []
  atol := 1
  rtol := 0
  tolSq := 1
  maxIters := 3

/-- Modelled from the spec: the linear-decay steady-state test model of §8,
already at the convergence region at its initial state. -/
def ssModel : Model where
  rhs := fun _ x _ => [some (-(x.getD 0 0))]
  nroots := 0
  roots := fun _ _ _ => []
  rootDir := fun _ => 0
  update := fun _ _ x => x
  updateSx := fun _ _ _ sx => sx
  sensRhs := fun _ _ _ sx => sx
  x0 := fun _ => [1]
  sx0 := fun _ => []

/-- Modelled from the spec: the JacobianHandle of §3 in sparse form — a
compressed structure holding the model-declared nonzero pattern and the
numeric values. -/
structure SparseJac where
  pattern : List (ℕ × ℕ)
  values : List ℚ
deriving DecidableEq

/-- Modelled from the spec: the Linear Algebra Adapter state — the pattern
captured by the symbolic analysis, how often symbolic and numeric
factorization ran, and the values of the last numeric factorization. -/
structure AdapterState where
  symbolicPattern : Option (List (ℕ × ℕ))
  symbolicCount : ℕ
  numericCount : ℕ
  lastValues : Option (List ℚ)
deriving DecidableEq

/-- The adapter state at the start of a run: no factorization happened. -/
def AdapterState.fresh : AdapterState :=
  { symbolicPattern := none, symbolicCount := 0, numericCount := 0, lastValues := none }

/-- Modelled from the spec: `factorize(J)` of §4.2 — symbolic factorization
happens only if no symbolic analysis exists yet (the nonzero pattern is
static), numeric re-factorization happens exactly when the values changed
since the previous numeric factorization. -/
def factorize (st : AdapterState) (J : SparseJac) : AdapterState :=
  let st₁ :=
    match st.symbolicPattern with
    | none => { st with symbolicPattern := some J.pattern,
                        symbolicCount := st.symbolicCount + 1 }
    | some _ => st
  if st₁.lastValues = some J.values then st₁
  else { st₁ with numericCount := st₁.numericCount + 1,
                  lastValues := some J.values }

/-- Modelled from the spec: a run presents the adapter with a sequence of
Jacobian evaluations, all carrying the fixed model-declared nonzero
pattern and a sequence of value vectors. -/
def runFactorizations (pat : List (ℕ × ℕ)) (vals : List (List ℚ)) : AdapterState :=
  vals.foldl (fun st v => factorize st ⟨pat, v⟩) AdapterState.fresh

/-- Number of positions in a sequence of value vectors where the values
differ from the previous ones (the first vector counts against `prev`). -/
def countChanges : Option (List ℚ) → List (List ℚ) → ℕ
  | _, [] => 0
  | prev, v :: rest => (if prev = some v then 0 else 1) + countChanges (some v) rest

/-- Modelled from the spec: the adjoint-mode extension of the Model
Contract (§4.1, §4.4) — the adjoint right-hand side
`adjoint_rhs(t, x, xB, p)` and the event adjoint (transpose/inverse)
effect that propagates the costate through a discontinuity. -/
structure AdjointContract where
  adjRhs : ℚ → List ℚ → List ℚ → List ℚ → List ℚ
  adjUpdate : ℕ → ℚ → List ℚ → List ℚ → List ℚ

/-- Modelled from the spec: the costate update across one forward-history
entry traversed backward — integrate the adjoint right-hand side across an
accepted step, or apply the event adjoint effect at a fired event; `x` is
the forward state at which the update is evaluated. -/
def adjApply (a : AdjointContract) (p : List ℚ) (e : HistEntry)
    (x xB : List ℚ) : List ℚ :=
  match e with
  | HistEntry.accept t h => addScaled xB h (a.adjRhs t x p xB)
  | HistEntry.fire i t => a.adjUpdate i t x xB

/-- Modelled from the spec: the state of the backward adjoint sweep (§4.6)
— the reconstructed forward state at the current sweep position, the
adjoint costate, the forward-history entries not yet traversed, and the
record of entries already traversed. -/
structure BackwardState where
  x : List ℚ
  xB : List ℚ
  remaining : List HistEntry
  consumed : List HistEntry
deriving DecidableEq

/-- Modelled from the spec: one step of the backward adjoint sweep — the
coordinator takes the most recent untraversed forward entry, reconstructs
the forward state just before it by replaying the earlier history from the
run-start checkpoint, and updates the costate across the entry against
that freshly reconstructed state, all in the same transition. -/
def backwardStep (m : Model) (c : Config) (a : AdjointContract)
    (s : BackwardState) : BackwardState :=
  match s.remaining.getLast? with
  | none => s
  | some e =>
      let rest := s.remaining.dropLast
      let xPrev := (replayHist m c rest).1
      { x := xPrev, xB := adjApply a c.p e xPrev s.xB,
        remaining := rest, consumed := e :: s.consumed }

/-- Modelled from the spec: the backward pass starts at the final time of
the forward pass — the reconstructed state is the full forward replay and
the costate is the terminal costate `xBT`. -/
def initBackward (m : Model) (c : Config) (entries : List HistEntry)
    (xBT : List ℚ) : BackwardState :=
  { x := (replayHist m c entries).1, xB := xBT,
    remaining := entries, consumed := [] }

/-- Modelled from the spec: running the backward adjoint sweep is iterating
the backward transition from the terminal state of the forward pass. -/
def backwardRun (m : Model) (c : Config) (a : AdjointContract)
    (entries : List HistEntry) (xBT : List ℚ) : ℕ → BackwardState
  | 0 => initBackward m c entries xBT
  | k + 1 => backwardStep m c a (backwardRun m c a entries xBT k)

/-- Modelled from the spec: the adjoint half of the ModelState invariant of
§3 — at the current backward-sweep position, the reconstructed `x` is
exactly the unique state obtained by replaying the forward operations
strictly before that position. -/
def consistentBackward (m : Model) (c : Config) (s : BackwardState) : Prop :=
  s.x = (replayHist m c s.remaining).1

/-- A concrete adjoint contract for the failure-test model: linear costate
dynamics and identity event adjoint. -/
def adjContract : AdjointContract where
  adjRhs := fun _ _ _ xB => xB.map (fun b => -b)
  adjUpdate := fun _ _ _ xB => xB

/-- A concrete backward-sweep state with one accepted step left to
traverse. -/
def bwState : BackwardState where
  x := [1]
  xB := [1]
  remaining := [HistEntry.accept 0 1]
  consumed := []

/-- The event-test run just after initialization: about to take the step
that simultaneously reaches the output time `1` and crosses the root. -/
def evState : DriverState where
  phase := Phase.stepping
  t := 0
  h := 1
  x := [0]
  sx := []
  prevRoots := [-(1 / 2)]
  retries := 0
  rejections := 0
  steps := 0
  remTouts := [1]
  outputs := []
  eventLog := []
  hist := []

/-- The event-test run just after accepting the crossing step: the fired
root `0` is pending resolution at time `1`. -/
def evPending : DriverState where
  phase := Phase.eventPending [0]
  t := 1
  h := 1
  x := [1]
  sx := []
  prevRoots := [1 / 2]
  retries := 0
  rejections := 0
  steps := 1
  remTouts := [1]
  outputs := []
  eventLog := []
  hist := [HistEntry.accept 0 1]

end AmiciSpec

namespace AmiciSpec

/-- C8: for a zero-initialized column-major 3×3 buffer and arbitrary numeric
inputs, `M_model_robertson` produces exactly `diag (1, 1, 0)`: flat entries
0 and 4 become `1`, every other entry — the third diagonal entry `M[8]`
included — stays `0`, and the resulting mass matrix is singular
(determinant `0`), so the third equation of the Robertson system is purely
algebraic. -/
theorem robertson_mass_matrix_diag110 (t : ℚ) (x p k : List ℚ) :
    M_model_robertson (List.replicate 9 0) t x p k = diag110 ∧
    (M_model_robertson (List.replicate 9 0) t x p k).getD 8 0 = 0 ∧
    det3 (M_model_robertson (List.replicate 9 0) t x p k) = 0 := by
  refine ⟨rfl, rfl, ?_⟩
  show det3 diag110 = 0
  norm_num [det3, entry3, diag110]

/-- Witness for C8 at concrete (irrelevant) numeric inputs. -/
theorem robertson_mass_matrix_diag110_witness :
    M_model_robertson (List.replicate 9 0) 0 [] [] [] = diag110 ∧
    (M_model_robertson (List.replicate 9 0) 0 [] [] []).getD 8 0 = 0 ∧
    det3 (M_model_robertson (List.replicate 9 0) 0 [] [] []) = 0 :=
  robertson_mass_matrix_diag110 0 [] [] []

/-- C9: `M_model_robertson` never reads its numeric inputs: for equal
initial buffers and any two input tuples, the resulting buffers are
equal — the mass matrix is constant across a run. -/
theorem robertson_mass_matrix_input_independent
    (M : List ℚ) (t₁ t₂ : ℚ) (x₁ p₁ k₁ x₂ p₂ k₂ : List ℚ) :
    M_model_robertson M t₁ x₁ p₁ k₁ = M_model_robertson M t₂ x₂ p₂ k₂ := rfl

/-- Witness for C9 at two concrete, different input tuples. -/
theorem robertson_mass_matrix_input_independent_witness :
    M_model_robertson diag110 0 [1] [2] [3] = M_model_robertson diag110 1 [4] [5] [6] :=
  robertson_mass_matrix_input_independent diag110 0 1 [1] [2] [3] [4] [5] [6]

/-- C10: in `regression_2642.xml`, with `binding` given by its initial
assignment, the net initial rate of `MR_i` is exactly zero in rational
arithmetic for every valuation with `MR_m ≠ 0`, while the net initial rate
of `MR_m` is `recycling * MR_i - (recycling * MR_i - synthesis_MR)
= synthesis_MR`; and the model-declared initial value of `synthesis_MR`
is nonzero. -/
theorem regression_2642_initial_flux_balance
    (synthesis_MR recycling MR_i MR_m : ℚ) (hm : MR_m ≠ 0) :
    netRate_MR_i synthesis_MR recycling
        (binding_init recycling MR_i synthesis_MR MR_m) MR_i MR_m = 0 ∧
    netRate_MR_m recycling
        (binding_init recycling MR_i synthesis_MR MR_m) MR_i MR_m
      = synthesis_MR ∧
    synthesis_MR_init ≠ 0 := by
  have hdiv : binding_init recycling MR_i synthesis_MR MR_m * MR_m
      = recycling * MR_i - synthesis_MR := by
    rw [binding_init, div_mul_cancel₀ _ hm]
  refine ⟨?_, ?_, by norm_num [synthesis_MR_init]⟩
  · rw [netRate_MR_i, rate_J0, rate_J1, rate_J2, hdiv]; ring
  · rw [netRate_MR_m, rate_J1, rate_J2, hdiv]; ring

/-- Witness for C10 at a concrete valuation with `MR_m ≠ 0`. -/
theorem regression_2642_initial_flux_balance_witness :
    netRate_MR_i 2 3 (binding_init 3 5 2 4) 5 4 = 0 ∧
    netRate_MR_m 3 (binding_init 3 5 2 4) 5 4 = 2 ∧
    synthesis_MR_init ≠ 0 := by
  have h := regression_2642_initial_flux_balance 2 3 5 4 (by norm_num)
  exact h

/-- C1: the engine is a deterministic function of model, configuration and
parameters: two runs of the same length from the same state end in equal
states — in particular with identical recorded trajectories (`outputs`),
since the driver transition is a pure function and the run judgment is
functional. -/
theorem engine_run_deterministic (m : Model) (c : Config) (s : DriverState)
    (n : ℕ) (τ₁ τ₂ : DriverState)
    (h₁ : DriverRun m c s n τ₁) (h₂ : DriverRun m c s n τ₂) : τ₁ = τ₂ := by
  induction h₁ generalizing τ₂ with
  | refl => cases h₂; rfl
  | step hrun heq ih =>
      cases h₂ with
      | step hrun₂ heq₂ =>
          subst heq
          subst heq₂
          rw [ih _ hrun₂]

/-- Witness for C1: two one-step runs of the failure-test model from the
created state reach the same state. -/
theorem engine_run_deterministic_witness :
    driverStep nanModel nanCfg initState = driverStep nanModel nanCfg initState :=
  engine_run_deterministic nanModel nanCfg initState 1
    (driverStep nanModel nanCfg initState) (driverStep nanModel nanCfg initState)
    (DriverRun.step (DriverRun.refl initState) rfl)
    (DriverRun.step (DriverRun.refl initState) rfl)

/-- Helper for C5: folding `factorize` over further value updates from a
state that already holds a symbolic analysis of the fixed pattern keeps
that analysis (and its pattern) unchanged and adds one numeric
factorization per value change. -/
theorem factorize_foldl_invariant (pat : List (ℕ × ℕ)) (vals : List (List ℚ)) :
    ∀ st : AdapterState, st.symbolicPattern = some pat →
      (vals.foldl (fun st v => factorize st ⟨pat, v⟩) st).symbolicPattern = some pat ∧
      (vals.foldl (fun st v => factorize st ⟨pat, v⟩) st).symbolicCount = st.symbolicCount ∧
      (vals.foldl (fun st v => factorize st ⟨pat, v⟩) st).numericCount
        = st.numericCount + countChanges st.lastValues vals := by
  induction vals with
  | nil => intro st h; simp [countChanges, h]
  | cons v rest ih =>
      intro st h
      by_cases hc : st.lastValues = some v
      · have hfac : factorize st ⟨pat, v⟩ = st := by
          simp [factorize, h, hc]
        rcases ih st h with ⟨i₁, i₂, i₃⟩
        simp only [List.foldl_cons, hfac]
        refine ⟨i₁, i₂, ?_⟩
        rw [i₃, hc]
        simp [countChanges]
      · have hfac : factorize st ⟨pat, v⟩
            = { st with numericCount := st.numericCount + 1, lastValues := some v } := by
          simp [factorize, h, hc]
        rcases ih { st with numericCount := st.numericCount + 1, lastValues := some v }
            h with ⟨i₁, i₂, i₃⟩
        simp only [List.foldl_cons, hfac]
        refine ⟨i₁, i₂, ?_⟩
        rw [i₃]
        show st.numericCount + 1 + countChanges (some v) rest
            = st.numericCount + countChanges st.lastValues (v :: rest)
        rw [countChanges, if_neg hc]
        omega

/-- C5: over a whole run — a nonempty sequence of Jacobian evaluations all
carrying the model-declared nonzero pattern — the adapter performs the
symbolic factorization exactly once, the recorded pattern stays the
declared one throughout, and the number of numeric factorizations equals
the number of times the Jacobian values changed. -/
theorem sparse_symbolic_once_numeric_on_change (pat : List (ℕ × ℕ))
    (vals : List (List ℚ)) (h : vals ≠ []) :
    (runFactorizations pat vals).symbolicCount = 1 ∧
    (runFactorizations pat vals).symbolicPattern = some pat ∧
    (runFactorizations pat vals).numericCount = countChanges none vals := by
  match vals, h with
  | v :: rest, _ =>
    have hfirst : factorize AdapterState.fresh ⟨pat, v⟩
        = { symbolicPattern := some pat, symbolicCount := 1,
            numericCount := 1, lastValues := some v } := by
      simp [factorize, AdapterState.fresh]
    rcases factorize_foldl_invariant pat rest
        { symbolicPattern := some pat, symbolicCount := 1,
          numericCount := 1, lastValues := some v } rfl with ⟨i₁, i₂, i₃⟩
    have hrun : runFactorizations pat (v :: rest)
        = rest.foldl (fun st v => factorize st ⟨pat, v⟩)
            { symbolicPattern := some pat, symbolicCount := 1,
              numericCount := 1, lastValues := some v } := by
      simp [runFactorizations, hfirst]
    refine ⟨?_, ?_, ?_⟩ <;> rw [hrun]
    · exact i₂
    · exact i₁
    · rw [i₃]; simp [countChanges]

/-- Witness for C5: a three-evaluation run with one repeated value vector:
one symbolic factorization, two numeric factorizations. -/
theorem sparse_symbolic_once_numeric_on_change_witness :
    (runFactorizations [(0, 0)] [[1], [1], [2]]).symbolicCount = 1 ∧
    (runFactorizations [(0, 0)] [[1], [1], [2]]).symbolicPattern = some [(0, 0)] ∧
    (runFactorizations [(0, 0)] [[1], [1], [2]]).numericCount
      = countChanges none [[1], [1], [2]] :=
  sparse_symbolic_once_numeric_on_change [(0, 0)] [[1], [1], [2]] (by simp)

/-- C7: root crossings detected within the same step are collected by
scanning the model-declared static root list in declaration order — the
fired-index list is always sorted by declaration index — and the event
handler resolves and logs exactly that list in that order. -/
theorem simultaneous_roots_declaration_order (m : Model) (c : Config)
    (s : DriverState) (prev cur : List ℚ) (fired : List ℕ)
    (h : s.phase = Phase.eventPending fired) :
    List.Sorted (fun a b => a < b) (firedIndices m prev cur) ∧
    (driverStep m c s).eventLog = s.eventLog ++ fired.map (fun i => (i, s.t)) := by
  constructor
  · exact List.Pairwise.filter _ (List.pairwise_lt_range m.nroots)
  · simp [driverStep, h]

/-- Witness for C7: in the event-test run, the single fired root `0` is
collected sorted and logged at the crossing time `1`. -/
theorem simultaneous_roots_declaration_order_witness :
    List.Sorted (fun a b => a < b) (firedIndices eventModel [-(1 / 2)] [1 / 2]) ∧
    (driverStep eventModel evCfg evPending).eventLog
      = evPending.eventLog ++ [0].map (fun i => (i, evPending.t)) :=
  simultaneous_roots_declaration_order eventModel evCfg evPending
    [-(1 / 2)] [1 / 2] [0] rfl

/-- Helper for C4: replaying a concatenated history folds the second part
over the replay of the first. -/
theorem replayHist_append (m : Model) (c : Config) (l₁ l₂ : List HistEntry) :
    replayHist m c (l₁ ++ l₂) = l₂.foldl (histStep m c.p) (replayHist m c l₁) := by
  simp [replayHist, List.foldl_append]

/-- Helper for C4: one driver transition from a state that is either still
uninitialized or history-consistent yields a history-consistent state —
the accepted-step and event branches update `x`, `sx` and the history in
the same transition. -/
theorem consistentState_step (m : Model) (c : Config) (s : DriverState)
    (h : s.phase = Phase.initializing ∨ consistentState m c s) :
    consistentState m c (driverStep m c s) := by
  rcases hp : s.phase with _ | _ | fired | _ | _ | e
  case initializing =>
      simp [consistentState, driverStep, hp, replayHist]
  all_goals
      have hc : (s.x, s.sx) = replayHist m c s.hist := by
        rcases h with h | h
        · rw [hp] at h; simp at h
        · exact h
  case stepping =>
      simp only [driverStep, hp]
      by_cases ht : s.remTouts = []
      · rw [if_pos ht]; exact hc
      · rw [if_neg ht]
        by_cases hms : c.maxSteps ≤ s.steps
        · rw [if_pos hms]; exact hc
        · rw [if_neg hms]
          split
          · split
            · exact hc
            · exact hc
          · rename_i xNew ha
            by_cases hf : firedIndices m s.prevRoots (m.roots (s.t + s.h) xNew c.p) = []
            · rw [if_pos hf]
              show (xNew, addScaledMat s.sx s.h (m.sensRhs s.t s.x c.p s.sx))
                  = replayHist m c (s.hist ++ [HistEntry.accept s.t s.h])
              rw [replayHist_append, List.foldl_cons, List.foldl_nil, ← hc]
              simp [histStep, ha]
            · rw [if_neg hf]
              show (xNew, addScaledMat s.sx s.h (m.sensRhs s.t s.x c.p s.sx))
                  = replayHist m c (s.hist ++ [HistEntry.accept s.t s.h])
              rw [replayHist_append, List.foldl_cons, List.foldl_nil, ← hc]
              simp [histStep, ha]
  case eventPending =>
      simp only [driverStep, hp]
      show ((applyEvents m s.t fired s.x s.sx).1, (applyEvents m s.t fired s.x s.sx).2)
          = replayHist m c (s.hist ++ fired.map (fun i => HistEntry.fire i s.t))
      rw [replayHist_append, List.foldl_map, ← hc]
      simp [applyEvents, histStep]
  case steadyStateCheck =>
      simpa [consistentState, driverStep, hp] using hc
  case finished =>
      simpa [consistentState, driverStep, hp] using hc
  case failed =>
      simpa [consistentState, driverStep, hp] using hc

/-- C2: a right-hand-side evaluation with any non-finite output component
fails with `EvaluationError`; the driver treats a failed step attempt in
the Stepping phase, while the retry budget lasts, as a recoverable step
rejection (it stays in Stepping and counts one rejection, rather than
failing); and in the concrete failure-test run — whose first step attempt
evaluates the right-hand side at a negative trial state and gets NaN —
the run incurs a step rejection and still reaches `Finished`. -/
theorem nonfinite_rhs_recoverable_step_rejection :
    (∀ (m : Model) (t : ℚ) (x p : List ℚ), none ∈ m.rhs t x p →
        evalRhs m t x p = Except.error EngineError.evaluationError) ∧
    (∀ (m : Model) (c : Config) (s : DriverState) (e : EngineError),
        s.phase = Phase.stepping → s.remTouts ≠ [] → s.steps < c.maxSteps →
        s.retries < c.maxRejects →
        attemptStep m c.p s.t s.h s.x = Except.error e →
        (driverStep m c s).phase = Phase.stepping ∧
        (driverStep m c s).rejections = s.rejections + 1) ∧
    attemptStep nanModel nanCfg.p 0 2 [1] = Except.error EngineError.evaluationError ∧
    1 ≤ (runDriver nanModel nanCfg 4).rejections ∧
    (runDriver nanModel nanCfg 4).phase = Phase.finished := by
  have e1 : runDriver nanModel nanCfg 1
      = { phase := Phase.stepping, t := 0, h := 2, x := [1], sx := [],
          prevRoots := [], retries := 0, rejections := 0, steps := 0,
          remTouts := [1], outputs := [], eventLog := [], hist := [] } := by
    show driverStep nanModel nanCfg initState = _
    norm_num [driverStep, initState, nanModel, nanCfg]
  have e2 : runDriver nanModel nanCfg 2
      = { phase := Phase.stepping, t := 0, h := 1, x := [1], sx := [],
          prevRoots := [], retries := 1, rejections := 1, steps := 0,
          remTouts := [1], outputs := [], eventLog := [], hist := [] } := by
    have h : runDriver nanModel nanCfg 2
        = driverStep nanModel nanCfg (runDriver nanModel nanCfg 1) := rfl
    rw [h, e1]
    norm_num [driverStep, attemptStep, evalRhs, addScaled, nanModel, nanCfg,
      Except.bind, bind]
  have e3 : runDriver nanModel nanCfg 3
      = { phase := Phase.stepping, t := 1, h := 1, x := [1 / 2], sx := [],
          prevRoots := [], retries := 0, rejections := 1, steps := 1,
          remTouts := [], outputs := [(1, [1 / 2])], eventLog := [],
          hist := [HistEntry.accept 0 1] } := by
    have h : runDriver nanModel nanCfg 3
        = driverStep nanModel nanCfg (runDriver nanModel nanCfg 2) := rfl
    rw [h, e2]
    norm_num [driverStep, attemptStep, evalRhs, addScaled, addScaledMat,
      firedIndices, nanModel, nanCfg, Except.bind, bind]
  have e4 : (runDriver nanModel nanCfg 4).rejections = 1 ∧
      (runDriver nanModel nanCfg 4).phase = Phase.finished := by
    have h : runDriver nanModel nanCfg 4
        = driverStep nanModel nanCfg (runDriver nanModel nanCfg 3) := rfl
    rw [h, e3]
    norm_num [driverStep]
  refine ⟨?_, ?_, ?_, ?_, e4.2⟩
  · intro m t x p hmem
    have hall : ¬ ((m.rhs t x p).all (fun o => o.isSome) = true) := by
      intro hforall
      simpa using (List.all_eq_true.mp hforall) none hmem
    simp only [evalRhs]
    rw [if_neg hall]
  · intro m c s e h1 h2 h3 h4 h5
    have hstep : driverStep m c s
        = { s with h := s.h / 2, retries := s.retries + 1,
                   rejections := s.rejections + 1 } := by
      simp only [driverStep, h1, h5]
      rw [if_neg h2, if_neg (not_le.mpr h3), if_neg (not_le.mpr h4)]
    rw [hstep]
    exact ⟨h1, rfl⟩
  · norm_num [attemptStep, evalRhs, addScaled, nanModel, nanCfg, Except.bind, bind]
  · rw [e4.1]

/-- Witness for C2: the non-finite first component of the failure-test
right-hand side at the trial state `[-1]` makes its evaluation fail with
`EvaluationError`. -/
theorem nonfinite_rhs_recoverable_step_rejection_witness :
    evalRhs nanModel 2 [-1] [] = Except.error EngineError.evaluationError :=
  nonfinite_rhs_recoverable_step_rejection.1 nanModel 2 [-1] []
    (by norm_num [nanModel])

/-- C3: the Steady-State Solver never silently returns an unconverged
state — every successful result carries `converged = true` and a state
whose derivative measure is within threshold; once the iteration budget is
exhausted it fails with `NonConvergenceError`; and the concrete
oscillatory model, which has no approached fixed point, triggers
`NonConvergenceError` after its iteration budget. -/
theorem steady_state_never_silently_unconverged :
    (∀ (m : Model) (c : SSConfig) (advance : List ℚ → List ℚ)
        (fuel iters : ℕ) (x : List ℚ) (r : SteadyStateResult),
        steadyState m c advance fuel iters x = Except.ok r →
        r.converged = true ∧
        ∃ dx, evalRhs m 0 r.x c.p = Except.ok dx ∧
              wrmsSq c.atol c.rtol r.x dx ≤ c.tolSq) ∧
    (∀ (m : Model) (c : SSConfig) (advance : List ℚ → List ℚ)
        (iters : ℕ) (x : List ℚ),
        steadyState m c advance 0 iters x
          = Except.error EngineError.nonConvergenceError) ∧
    runSteadyState oscModel oscCfg oscAdvance
      = Except.error EngineError.nonConvergenceError := by
  refine ⟨?_, fun m c advance iters x => rfl, ?_⟩
  · intro m c advance fuel
    induction fuel with
    | zero =>
        intro iters x r hr
        exact absurd hr (by simp [steadyState])
    | succ k ih =>
        intro iters x r hr
        rw [steadyState] at hr
        split at hr
        · exact Except.noConfusion hr
        · rename_i dx he
          split at hr
          · rename_i hw
            injection hr with hr
            subst hr
            exact ⟨rfl, dx, he, hw⟩
          · exact ih (iters + 1) (advance x) r hr
  · have hev1 : evalRhs oscModel 0 [1] oscCfg.p = Except.ok [-2] := by
      norm_num [evalRhs, oscModel, oscCfg]
    have hev2 : evalRhs oscModel 0 [-1] oscCfg.p = Except.ok [2] := by
      norm_num [evalRhs, oscModel, oscCfg]
    have hw1 : ¬ wrmsSq oscCfg.atol oscCfg.rtol [1] [-2] ≤ oscCfg.tolSq := by
      norm_num [wrmsSq, oscCfg]
    have hw2 : ¬ wrmsSq oscCfg.atol oscCfg.rtol [-1] [2] ≤ oscCfg.tolSq := by
      norm_num [wrmsSq, oscCfg]
    have ha1 : oscAdvance [1] = [-1] := by norm_num [oscAdvance]
    have ha2 : oscAdvance [-1] = [1] := by norm_num [oscAdvance]
    show steadyState oscModel oscCfg oscAdvance (2 + 1) 0 [1] = _
    rw [steadyState]
    simp only [hev1]
    rw [if_neg hw1, ha1]
    show steadyState oscModel oscCfg oscAdvance (1 + 1) (0 + 1) [-1] = _
    rw [steadyState]
    simp only [hev2]
    rw [if_neg hw2, ha2]
    show steadyState oscModel oscCfg oscAdvance (0 + 1) (0 + 1 + 1) [1] = _
    rw [steadyState]
    simp only [hev1]
    rw [if_neg hw1]
    rfl

/-- Witness for C3: the linear-decay test model converges immediately and
the solver reports a converged result whose derivative measure meets the
threshold. -/
theorem steady_state_never_silently_unconverged_witness :
    SteadyStateResult.converged ⟨[1], true, 0⟩ = true ∧
    ∃ dx, evalRhs ssModel 0 (SteadyStateResult.x ⟨[1], true, 0⟩) oscCfg.p
            = Except.ok dx ∧
          wrmsSq oscCfg.atol oscCfg.rtol (SteadyStateResult.x ⟨[1], true, 0⟩) dx
            ≤ oscCfg.tolSq := by
  refine steady_state_never_silently_unconverged.1 ssModel oscCfg oscAdvance
      1 0 [1] ⟨[1], true, 0⟩ ?_
  have hev : evalRhs ssModel 0 [1] oscCfg.p = Except.ok [-1] := by
    norm_num [evalRhs, ssModel, oscCfg]
  have hw : wrmsSq oscCfg.atol oscCfg.rtol [1] [-1] ≤ oscCfg.tolSq := by
    norm_num [wrmsSq, oscCfg]
  show steadyState ssModel oscCfg oscAdvance (0 + 1) 0 [1] = _
  rw [steadyState]
  simp only [hev]
  rw [if_pos hw]

/-- C6: when an accepted step simultaneously lands on the next requested
output time and fires a root crossing, the driver defers the output (the
accepting transition records nothing and moves to `eventPending`), resolves
the crossing first, and the output then recorded at that time is the
event-updated state. -/
theorem root_resolved_before_output (m : Model) (c : Config) (s : DriverState)
    (xNew : List ℚ) (fired : List ℕ)
    (h1 : s.phase = Phase.stepping) (h2 : s.remTouts ≠ [])
    (h3 : s.steps < c.maxSteps)
    (h4 : attemptStep m c.p s.t s.h s.x = Except.ok xNew)
    (h5 : firedIndices m s.prevRoots (m.roots (s.t + s.h) xNew c.p) = fired)
    (h6 : fired ≠ [])
    (h7 : s.remTouts.getD 0 0 = s.t + s.h) :
    (driverStep m c s).outputs = s.outputs ∧
    (driverStep m c s).phase = Phase.eventPending fired ∧
    (driverStep m c (driverStep m c s)).outputs
      = s.outputs ++ [(s.t + s.h,
          (applyEvents m (s.t + s.h) fired xNew
            (addScaledMat s.sx s.h (m.sensRhs s.t s.x c.p s.sx))).1)] := by
  have hs1 : driverStep m c s
      = { s with phase := Phase.eventPending fired,
                 t := s.t + s.h, x := xNew,
                 sx := addScaledMat s.sx s.h (m.sensRhs s.t s.x c.p s.sx),
                 prevRoots := m.roots (s.t + s.h) xNew c.p,
                 steps := s.steps + 1, retries := 0,
                 hist := s.hist ++ [HistEntry.accept s.t s.h] } := by
    simp only [driverStep, h1, h4]
    rw [if_neg h2, if_neg (not_le.mpr h3), h5, if_neg h6]
  refine ⟨by rw [hs1], by rw [hs1], ?_⟩
  rw [hs1]
  simp only [driverStep]
  rw [if_pos h7]

/-- Witness for C6: the event-test step from `evState` reaches the output
time `1` and fires root `0`; the output recorded after resolution is the
reset state. -/
theorem root_resolved_before_output_witness :
    (driverStep eventModel evCfg evState).outputs = evState.outputs ∧
    (driverStep eventModel evCfg evState).phase = Phase.eventPending [0] ∧
    (driverStep eventModel evCfg (driverStep eventModel evCfg evState)).outputs
      = evState.outputs ++ [(evState.t + evState.h,
          (applyEvents eventModel (evState.t + evState.h) [0] [1]
            (addScaledMat evState.sx evState.h
              (eventModel.sensRhs evState.t evState.x evCfg.p evState.sx))).1)] := by
  refine root_resolved_before_output eventModel evCfg evState [1] [0]
      rfl (by simp [evState]) (by norm_num [evState, evCfg]) ?_ ?_ (by simp) ?_
  · show attemptStep eventModel evCfg.p 0 1 [0] = Except.ok [1]
    norm_num [attemptStep, evalRhs, addScaled, eventModel, evCfg, Except.bind, bind]
  · show firedIndices eventModel [-(1 / 2)]
        (eventModel.roots (evState.t + evState.h) [1] evCfg.p) = [0]
    norm_num [firedIndices, dirMatch, eventModel, evCfg, evState, List.filter]
  · show ([1] : List ℚ).getD 0 0 = evState.t + evState.h
    norm_num [evState]

/-- Helper for C4: one backward-sweep transition preserves the adjoint
consistency invariant — the transition installs exactly the replay of the
entries before the new position as the reconstructed state. -/
theorem consistentBackward_step (m : Model) (c : Config) (a : AdjointContract)
    (s : BackwardState) (h : consistentBackward m c s) :
    consistentBackward m c (backwardStep m c a s) := by
  simp only [backwardStep]
  split
  · exact h
  · rfl

/-- C4: the ModelState invariant, in both sensitivity modes.  Forward: at
every point of a run past creation, the current `x` equals the unique
state obtained by replaying the processed history (accepted steps and
events fired strictly before the current time) from the initial
conditions, and the current `sx` is the sensitivity determined by
replaying that same history — event effects update `x` and `sx` in one
atomic transition.  Adjoint: at every point of the backward sweep over the
forward history of that run, the reconstructed `x` equals the unique
state obtained by replaying the forward operations strictly before the
current backward position, and every costate update is evaluated against
exactly that freshly reconstructed current `x` — so neither `sx` nor `xB`
is ever computed against a stale state. -/
theorem state_sensitivity_history_consistent (m : Model) (c : Config)
    (a : AdjointContract) (n k : ℕ) (xBT : List ℚ) :
    consistentState m c (runDriver m c (n + 1)) ∧
    consistentBackward m c
      (backwardRun m c a (runDriver m c (n + 1)).hist xBT k) ∧
    (∀ (s : BackwardState) (e : HistEntry), s.remaining.getLast? = some e →
        (backwardStep m c a s).xB
          = adjApply a c.p e (backwardStep m c a s).x s.xB) := by
  refine ⟨?_, ?_, ?_⟩
  · induction n with
    | zero => exact consistentState_step m c initState (Or.inl rfl)
    | succ j ih => exact consistentState_step m c (runDriver m c (j + 1)) (Or.inr ih)
  · induction k with
    | zero => exact rfl
    | succ j ih =>
        exact consistentBackward_step m c a
          (backwardRun m c a (runDriver m c (n + 1)).hist xBT j) ih
  · intro s e he
    simp only [backwardStep, he]

/-- Witness for C4: the invariant at the first step of the failure-test
run, one backward-sweep step over its history, and the costate update
across a concrete pending accepted step. -/
theorem state_sensitivity_history_consistent_witness :
    consistentState nanModel nanCfg (runDriver nanModel nanCfg (0 + 1)) ∧
    consistentBackward nanModel nanCfg
      (backwardRun nanModel nanCfg adjContract
        (runDriver nanModel nanCfg (0 + 1)).hist [1] 1) ∧
    (backwardStep nanModel nanCfg adjContract bwState).xB
      = adjApply adjContract nanCfg.p (HistEntry.accept 0 1)
          (backwardStep nanModel nanCfg adjContract bwState).x bwState.xB := by
  obtain ⟨h₁, h₂, h₃⟩ :=
    state_sensitivity_history_consistent nanModel nanCfg adjContract 0 1 [1]
  exact ⟨h₁, h₂, h₃ bwState (HistEntry.accept 0 1) rfl⟩

end AmiciSpec
